import Mathlib

/-!
Verification of the credit-ledger reconciliation engine: the event
fetch/merge logic of the backend chain module and the endpoint
selection / resilient read logic of the frontend chain module.

Conventions of the shallow embedding:
* network calls are modelled by their outcomes (`Except` values or
  boolean probe functions passed in as parameters);
* the module-level mutable variables (`provider`, `directProvider`)
  become explicit state records threaded through the functions;
* JavaScript `Array.prototype.sort` with a consistent comparator is a
  stable sort (ECMAScript 2019), embedded as `List.insertionSort` with
  the non-strict comparison derived from the comparator.
-/

namespace Backend

/-- The `ethers.ZeroAddress` constant. -/
def ZeroAddress : String := "0x0000000000000000000000000000000000000000"

/-- Event category tag of a normalized `CreditEvent`
(the `type` field: `'issued' | 'transferred' | 'retired'`). -/
inductive EventType where
  | issued
  | transferred
  | retired
deriving DecidableEq, Repr

/-- The normalized `CreditEvent` record of `src/backend/src/lib/chain.ts`.
Optional fields mirror the optional properties of the TypeScript interface. -/
structure CreditEvent where
  type : EventType
  tokenId : Option Nat := none
  fromAddr : Option String := none
  toAddr : Option String := none
  amount : Option Nat := none
  fromId : Option Nat := none
  toId : Option Nat := none
  timestamp : Nat
  blockNumber : Nat
  transactionHash : String
deriving DecidableEq, Repr

/-- A raw `CreditsIssued` log entry as consumed by `getCreditEvents`:
the argument fields read from `event.args`, the block number, the
containing block timestamp (`event.getBlock()`), and the transaction
hash.  `hasArgs` models the `'args' in event && event.args` guard. -/
structure RawIssued where
  hasArgs : Bool := true
  toAddr : String
  amount : Nat
  fromId : Nat
  toId : Nat
  blockNumber : Nat
  blockTimestamp : Nat
  transactionHash : String
deriving DecidableEq, Repr

/-- A raw ERC-721 `Transfer` log entry as consumed by `getCreditEvents`. -/
structure RawTransfer where
  hasArgs : Bool := true
  fromAddr : String
  toAddr : String
  tokenId : Nat
  blockNumber : Nat
  blockTimestamp : Nat
  transactionHash : String
deriving DecidableEq, Repr

/-- A raw `CreditRetired` log entry as consumed by `getCreditEvents`. -/
structure RawRetired where
  hasArgs : Bool := true
  fromAddr : String
  tokenId : Nat
  blockNumber : Nat
  blockTimestamp : Nat
  transactionHash : String
deriving DecidableEq, Repr

/-- Normalization of one raw `CreditsIssued` entry (the first `for` loop
of `getCreditEvents`); entries without args are skipped. -/
def normalizeIssued (e : RawIssued) : Option CreditEvent :=
  if e.hasArgs then
    some { type := EventType.issued
           toAddr := some e.toAddr
           amount := some e.amount
           fromId := some e.fromId
           toId := some e.toId
           timestamp := e.blockTimestamp
           blockNumber := e.blockNumber
           transactionHash := e.transactionHash }
  else none

/-- Normalization of one raw `Transfer` entry (the second `for` loop of
`getCreditEvents`): entries without args are skipped, and entries whose
`from` (`event.args[0]`) equals `ethers.ZeroAddress` are excluded
(`// Exclude mints`). -/
def normalizeTransfer (e : RawTransfer) : Option CreditEvent :=
  if e.hasArgs ∧ e.fromAddr ≠ ZeroAddress then
    some { type := EventType.transferred
           tokenId := some e.tokenId
           fromAddr := some e.fromAddr
           toAddr := some e.toAddr
           timestamp := e.blockTimestamp
           blockNumber := e.blockNumber
           transactionHash := e.transactionHash }
  else none

/-- Normalization of one raw `CreditRetired` entry (the third `for` loop
of `getCreditEvents`). -/
def normalizeRetired (e : RawRetired) : Option CreditEvent :=
  if e.hasArgs then
    some { type := EventType.retired
           tokenId := some e.tokenId
           fromAddr := some e.fromAddr
           timestamp := e.blockTimestamp
           blockNumber := e.blockNumber
           transactionHash := e.transactionHash }
  else none

/-- The contents of the `events` array of `getCreditEvents` just before
the final sort: issued entries pushed first, then transfers, then
retirements, each category in fetch (contract log) order. -/
def fetchedEvents (issuedEvents : List RawIssued) (transferEvents : List RawTransfer)
    (retiredEvents : List RawRetired) : List CreditEvent :=
  issuedEvents.filterMap normalizeIssued ++ transferEvents.filterMap normalizeTransfer
    ++ retiredEvents.filterMap normalizeRetired

/-- The ordering of the comparator
`(a, b) => a.blockNumber - b.blockNumber, else a.timestamp - b.timestamp`:
`eventLe a b` holds exactly when the comparator returns a value `≤ 0`. -/
def eventLe (a b : CreditEvent) : Prop :=
  a.blockNumber < b.blockNumber ∨ (a.blockNumber = b.blockNumber ∧ a.timestamp ≤ b.timestamp)

instance : DecidableRel eventLe := fun a b => by
  unfold eventLe
  exact inferInstance

instance : IsTotal CreditEvent eventLe :=
  ⟨fun a b => by unfold eventLe; omega⟩

instance : IsTrans CreditEvent eventLe :=
  ⟨fun a b c hab hbc => by unfold eventLe at *; omega⟩

/-- The merge of `getCreditEvents` applied to given per-category fetch
results: push the normalized events category by category, then sort in
place with the `(blockNumber, timestamp)` comparator.  JavaScript sort
is stable, hence `List.insertionSort` with the non-strict relation. -/
def getCreditEvents (issuedEvents : List RawIssued) (transferEvents : List RawTransfer)
    (retiredEvents : List RawRetired) : List CreditEvent :=
  List.insertionSort eventLe (fetchedEvents issuedEvents transferEvents retiredEvents)

/-- `getCreditEvents` with its fallible parts: the contract guard
(`throw new Error('Contract not initialized')`) and the three sequential
category fetches, any failure of which is rethrown by the surrounding
`try`/`catch`. -/
def getCreditEventsE (contractInstance : Option Unit)
    (fetchIssued : Except String (List RawIssued))
    (fetchTransfer : Except String (List RawTransfer))
    (fetchRetired : Except String (List RawRetired)) :
    Except String (List CreditEvent) :=
  match contractInstance with
  | none => Except.error "Contract not initialized"
  | some _ =>
    match fetchIssued with
    | Except.error e => Except.error e
    | Except.ok issuedEvents =>
      match fetchTransfer with
      | Except.error e => Except.error e
      | Except.ok transferEvents =>
        match fetchRetired with
        | Except.error e => Except.error e
        | Except.ok retiredEvents =>
          Except.ok (getCreditEvents issuedEvents transferEvents retiredEvents)

/-- Module state of the backend chain module: the module-level
`provider` variable (`let provider: ethers.JsonRpcProvider | null`),
modelled by the RPC url the cached provider object was created from. -/
structure BackendState where
  provider : Option String
deriving DecidableEq, Repr

/-- The backend `getProvider`, with the connection-test outcome
(`await provider.getBlockNumber()`) supplied as `testOk`.  Returns the
result (the possibly-null provider, or the thrown error), the new module
state, and how many connection tests were run during the call.  Note the
source assigns the module-level `provider` before running the test, so a
failing test leaves the untested provider cached. -/
def getProvider (rpcUrl : Option String) (testOk : Bool) (s : BackendState) :
    Except String (Option String) × BackendState × Nat :=
  match s.provider, rpcUrl with
  | none, some url =>
    if testOk then
      (Except.ok (some url), { provider := some url }, 1)
    else
      (Except.error "Failed to connect to blockchain", { provider := some url }, 1)
  | _, _ => (Except.ok s.provider, s, 0)

/-- Boolean test for sharing the sort key `(blockNumber, timestamp)`. -/
def sameKey (bn ts : Nat) (e : CreditEvent) : Bool :=
  e.blockNumber == bn && e.timestamp == ts

/-- Concrete transfer entry for witnesses/counterexamples. -/
def c1Transfer : RawTransfer :=
  { fromAddr := "0xAAA"
    toAddr := "0xBBB"
    tokenId := 5
    blockNumber := 10
    blockTimestamp := 100
    transactionHash := "0xt1" }

/-- The normalized ledger event of `c1Transfer`. -/
def c1Event : CreditEvent :=
  { type := EventType.transferred
    tokenId := some 5
    fromAddr := some "0xAAA"
    toAddr := some "0xBBB"
    timestamp := 100
    blockNumber := 10
    transactionHash := "0xt1" }

/-- C3 counterexample, input X: an issuance at block 10. -/
def c3IssuedX : RawIssued :=
  { toAddr := "0xAAA", amount := 1, fromId := 1, toId := 1,
    blockNumber := 10, blockTimestamp := 100, transactionHash := "0xb1" }

/-- C3 counterexample, input X: a transfer at block 10. -/
def c3TransferX : RawTransfer :=
  { fromAddr := "0xCCC", toAddr := "0xDDD", tokenId := 2,
    blockNumber := 10, blockTimestamp := 100, transactionHash := "0xb2" }

/-- C3 counterexample, extension Y: an issuance at block 10, the maximum
block of X (permitted by the non-strict bound of the claim). -/
def c3IssuedY : RawIssued :=
  { toAddr := "0xEEE", amount := 1, fromId := 2, toId := 2,
    blockNumber := 10, blockTimestamp := 100, transactionHash := "0xb3" }

/-- C3 witness, input X: an issuance at block 10. -/
def c3wIssuedA : RawIssued :=
  { toAddr := "0xAAA", amount := 1, fromId := 1, toId := 1,
    blockNumber := 10, blockTimestamp := 100, transactionHash := "0xc1" }

/-- C3 witness, input X: a transfer at block 10. -/
def c3wTransfer : RawTransfer :=
  { fromAddr := "0xCCC", toAddr := "0xDDD", tokenId := 2,
    blockNumber := 10, blockTimestamp := 100, transactionHash := "0xc2" }

/-- C3 witness, extension Y: an issuance at the strictly later block 11. -/
def c3wIssuedB : RawIssued :=
  { toAddr := "0xEEE", amount := 1, fromId := 2, toId := 2,
    blockNumber := 11, blockTimestamp := 101, transactionHash := "0xc3" }

/-- C4 counterexample: a transfer entry that will be fed in twice. -/
def c4Transfer : RawTransfer :=
  { fromAddr := "0xAAA", toAddr := "0xBBB", tokenId := 7,
    blockNumber := 12, blockTimestamp := 120, transactionHash := "0xd1" }

/-- The normalized ledger event of `c4Transfer`. -/
def c4Event : CreditEvent :=
  { type := EventType.transferred
    tokenId := some 7
    fromAddr := some "0xAAA"
    toAddr := some "0xBBB"
    timestamp := 120
    blockNumber := 12
    transactionHash := "0xd1" }

end Backend

namespace Frontend

/-- Default value of `RPC_URL` in the frontend chain module. -/
def RPC_URL : String := "https://ethereum-sepolia.publicnode.com"

/-- The static `FALLBACK_RPC_ENDPOINTS` list. -/
def FALLBACK_RPC_ENDPOINTS : List String :=
  ["https://rpc.sepolia.org",
   "https://sepolia.infura.io/v3/9aa3d95b3bc440fa88ea12eaa4456161",
   "https://ethereum-sepolia.publicnode.com",
   "https://sepolia.drpc.org"]

/-- `const urls = [RPC_URL, ...FALLBACK_RPC_ENDPOINTS]` in
`getDirectProvider`. -/
def endpointUrls : List String := RPC_URL :: FALLBACK_RPC_ENDPOINTS

/-- Module state of the frontend chain module: the module-level
`directProvider` variable, as the url it was built from. -/
structure FrontendState where
  directProvider : Option String
deriving DecidableEq, Repr

/-- The `for (const url of urls)` loop of `getDirectProvider`:
`probe url` is the outcome of `new ethers.JsonRpcProvider(url)` followed
by `await testProvider.getBlockNumber()`.  Returns the list of urls that
were actually probed, and the first url whose probe succeeded (if any);
the loop `break`s on the first success. -/
def probeEndpoints (probe : String → Bool) : List String → List String × Option String
  | [] => ([], none)
  | url :: rest =>
    if probe url then ([url], some url)
    else
      let r := probeEndpoints probe rest
      (url :: r.1, r.2)

/-- The frontend `getDirectProvider`: return the cached provider if
present, otherwise probe the endpoint list in order and cache the first
success; throw when every endpoint fails. -/
def getDirectProvider (probe : String → Bool) (s : FrontendState) :
    Except String (String × FrontendState) :=
  match s.directProvider with
  | some p => Except.ok (p, s)
  | none =>
    match (probeEndpoints probe endpointUrls).2 with
    | some p => Except.ok (p, { directProvider := some p })
    | none =>
      Except.error "All RPC endpoints failed. Please check your internet connection and try again."

/-- Result of one call to `getOwnedTokens`, with the execution
transcript the proofs refer to: the returned token list, the final
module state, the backoff delays awaited (in ms, in order), the attempt
numbers that executed, and the provider used by each attempt that
obtained one. -/
structure ReadOutcome where
  tokens : List Nat
  state : FrontendState
  delays : List Nat
  tried : List Nat
  providers : List String
deriving DecidableEq, Repr

/-- The `for (let attempt = 1; attempt <= 3; attempt++)` retry loop of
`getOwnedTokens`.  `call attempt url` is the outcome of
`contract.tokensOfOwner(address)` on that attempt with the provider
built from `url`; a provider-selection failure is caught by the same
`catch`.  `rem + 1` is the number of loop iterations still allowed, so
`rem = 0` exactly when `attempt === 3`; the `rem = 0` base case is the
`if (attempt === 3) return []` early return (and the dead `return []`
after the loop).  On a non-final failure the loop awaits
`setTimeout(..., 1000 * attempt)` and retries. -/
def getOwnedTokensGo (probe : String → Bool) (call : Nat → String → Except String (List Nat)) :
    Nat → Nat → FrontendState → List Nat → List Nat → List String → ReadOutcome
  | _, 0, s, delays, tried, provs => ⟨[], s, delays, tried, provs⟩
  | attempt, rem + 1, s, delays, tried, provs =>
    match getDirectProvider probe s with
    | Except.ok (p, s₁) =>
      match call attempt p with
      | Except.ok tokenArray => ⟨tokenArray, s₁, delays, tried ++ [attempt], provs ++ [p]⟩
      | Except.error _ =>
        if rem = 0 then ⟨[], s₁, delays, tried ++ [attempt], provs ++ [p]⟩
        else
          getOwnedTokensGo probe call (attempt + 1) rem s₁ (delays ++ [1000 * attempt])
            (tried ++ [attempt]) (provs ++ [p])
    | Except.error _ =>
      if rem = 0 then ⟨[], s, delays, tried ++ [attempt], provs⟩
      else
        getOwnedTokensGo probe call (attempt + 1) rem s (delays ++ [1000 * attempt])
          (tried ++ [attempt]) provs

/-- The frontend `getOwnedTokens` for a fixed address: run the retry
loop from attempt 1 with 3 iterations allowed. -/
def getOwnedTokens (probe : String → Bool) (call : Nat → String → Except String (List Nat))
    (s : FrontendState) : ReadOutcome :=
  getOwnedTokensGo probe call 1 3 s [] [] []

/-- The frontend `isTokenRetired`: one direct read through
`getDirectReadOnlyContract`, with any failure (endpoint selection or the
contract call `rcall`) caught and turned into `false`. -/
def isTokenRetired (probe : String → Bool) (rcall : String → Except String Bool)
    (s : FrontendState) : Bool × FrontendState :=
  match getDirectProvider probe s with
  | Except.ok (p, s₁) =>
    match rcall p with
    | Except.ok b => (b, s₁)
    | Except.error _ => (false, s₁)
  | Except.error _ => (false, s)

/-- A frontend module state whose cached provider is a stale handle
that does not occur in the configured endpoint list. -/
def c9State : FrontendState := { directProvider := some "0xstaleprovider" }

end Frontend

namespace Backend

theorem normalizeIssued_spec {a : RawIssued} {e : CreditEvent}
    (h : normalizeIssued a = some e) :
    e.type = EventType.issued ∧ e.blockNumber = a.blockNumber := by
  unfold normalizeIssued at h
  split at h
  · injection h with h
    subst h
    exact ⟨rfl, rfl⟩
  · cases h

theorem normalizeTransfer_spec {a : RawTransfer} {e : CreditEvent}
    (h : normalizeTransfer a = some e) :
    e.type = EventType.transferred ∧ e.blockNumber = a.blockNumber
      ∧ e.fromAddr = some a.fromAddr ∧ a.fromAddr ≠ ZeroAddress := by
  unfold normalizeTransfer at h
  split at h
  next hcond =>
    injection h with h
    subst h
    exact ⟨rfl, rfl, rfl, hcond.2⟩
  next => cases h

theorem normalizeRetired_spec {a : RawRetired} {e : CreditEvent}
    (h : normalizeRetired a = some e) :
    e.type = EventType.retired ∧ e.blockNumber = a.blockNumber := by
  unfold normalizeRetired at h
  split at h
  · injection h with h
    subst h
    exact ⟨rfl, rfl⟩
  · cases h

theorem eventLe_of_sameKey {bn ts : Nat} {x y : CreditEvent}
    (hx : sameKey bn ts x = true) (hy : sameKey bn ts y = true) : eventLe x y := by
  simp only [sameKey, Bool.and_eq_true, beq_iff_eq] at hx hy
  exact Or.inr ⟨hx.1.trans hy.1.symm, hx.2.trans hy.2.symm ▸ le_refl _⟩

theorem filter_orderedInsert_of_sameKey (bn ts : Nat) (x : CreditEvent)
    (hx : sameKey bn ts x = true) :
    ∀ l : List CreditEvent,
      (List.orderedInsert eventLe x l).filter (sameKey bn ts)
        = x :: l.filter (sameKey bn ts)
  | [] => by simp [hx]
  | y :: l => by
    by_cases hle : eventLe x y
    · simp [List.orderedInsert, hle, List.filter_cons, hx]
    · have hy : sameKey bn ts y = false := by
        cases hsy : sameKey bn ts y
        · rfl
        · exact absurd (eventLe_of_sameKey hx hsy) hle
      simp [List.orderedInsert, hle, List.filter_cons, hy,
        filter_orderedInsert_of_sameKey bn ts x hx l]

theorem filter_orderedInsert_of_not_sameKey (bn ts : Nat) (x : CreditEvent)
    (hx : sameKey bn ts x = false) :
    ∀ l : List CreditEvent,
      (List.orderedInsert eventLe x l).filter (sameKey bn ts) = l.filter (sameKey bn ts)
  | [] => by simp [hx]
  | y :: l => by
    by_cases hle : eventLe x y
    · simp [List.orderedInsert, hle, List.filter_cons, hx]
    · simp only [List.orderedInsert, if_neg hle, List.filter_cons,
        filter_orderedInsert_of_not_sameKey bn ts x hx l]

/-- Stability of the merge sort step: filtering the sorted list down to
one `(blockNumber, timestamp)` key gives exactly the same subsequence as
filtering the input, in input order. -/
theorem filter_insertionSort_sameKey (bn ts : Nat) :
    ∀ l : List CreditEvent,
      (List.insertionSort eventLe l).filter (sameKey bn ts) = l.filter (sameKey bn ts)
  | [] => rfl
  | x :: l => by
    cases hx : sameKey bn ts x
    · rw [List.insertionSort, filter_orderedInsert_of_not_sameKey bn ts x hx,
        filter_insertionSort_sameKey bn ts l, List.filter_cons, hx]
      simp
    · rw [List.insertionSort, filter_orderedInsert_of_sameKey bn ts x hx,
        filter_insertionSort_sameKey bn ts l, List.filter_cons, hx]
      simp

theorem orderedInsert_append_left (x : CreditEvent) (B : List CreditEvent)
    (hB : ∀ b ∈ B, eventLe x b) :
    ∀ A : List CreditEvent,
      List.orderedInsert eventLe x (A ++ B) = List.orderedInsert eventLe x A ++ B
  | [] => by
    cases B with
    | nil => rfl
    | cons b B₁ => simp [List.orderedInsert, hB b (by simp)]
  | a :: A₁ => by
    by_cases hle : eventLe x a
    · simp [List.orderedInsert, hle]
    · simp [List.orderedInsert, hle, orderedInsert_append_left x B hB A₁]

theorem orderedInsert_append_right (x : CreditEvent) (B : List CreditEvent) :
    ∀ A : List CreditEvent, (∀ a ∈ A, ¬ eventLe x a) →
      List.orderedInsert eventLe x (A ++ B) = A ++ List.orderedInsert eventLe x B
  | [], _ => rfl
  | a :: A₁, hA => by
    simp [List.orderedInsert, hA a (by simp),
      orderedInsert_append_right x B A₁ (fun a₁ ha₁ => hA a₁ (by simp [ha₁]))]

/-- Splitting a stable sort along a downward-closed predicate: if every
element satisfying `P` is strictly below every element refuting `P`,
the sort of the whole list is the sort of the `P` part followed by the
sort of the rest. -/
theorem insertionSort_filter_split (P : CreditEvent → Bool)
    (h : ∀ a b : CreditEvent, P a = true → P b = false → eventLe a b ∧ ¬ eventLe b a) :
    ∀ l : List CreditEvent,
      List.insertionSort eventLe l
        = List.insertionSort eventLe (l.filter P)
          ++ List.insertionSort eventLe (l.filter (fun x => !(P x)))
  | [] => rfl
  | x :: l => by
    rw [List.insertionSort, insertionSort_filter_split P h l]
    cases hx : P x
    · rw [orderedInsert_append_right x _ _ (fun a ha => by
        have haP : P a = true := by
          have := (List.mem_insertionSort eventLe).1 ha
          exact (List.mem_filter.1 this).2
        exact (h a x haP hx).2)]
      rw [List.filter_cons, List.filter_cons, hx]
      simp [List.insertionSort]
    · rw [orderedInsert_append_left x _ (fun b hb => by
        have hbP : P b = false := by
          have := (List.mem_insertionSort eventLe).1 hb
          have := (List.mem_filter.1 this).2
          simpa using this
        exact (h x b hx hbP).1)]
      rw [List.filter_cons, List.filter_cons, hx]
      simp [List.insertionSort]

theorem filter_eq_self_of (P : CreditEvent → Bool) :
    ∀ l : List CreditEvent, (∀ e ∈ l, P e = true) → l.filter P = l
  | [], _ => rfl
  | x :: l, h => by
    rw [List.filter_cons, h x (by simp)]
    simp only [filter_eq_self_of P l (fun e he => h e (by simp [he]))]
    simp

theorem filter_eq_nil_of (P : CreditEvent → Bool) :
    ∀ l : List CreditEvent, (∀ e ∈ l, P e = false) → l.filter P = []
  | [], _ => rfl
  | x :: l, h => by
    rw [List.filter_cons, h x (by simp)]
    simp only [filter_eq_nil_of P l (fun e he => h e (by simp [he]))]
    simp

end Backend

namespace Frontend

theorem probeEndpoints_eq (probe : String → Bool) :
    ∀ l : List String,
      probeEndpoints probe l
        = (l.takeWhile (fun u => !(probe u)) ++ (l.dropWhile (fun u => !(probe u))).take 1,
           (l.dropWhile (fun u => !(probe u))).head?)
  | [] => rfl
  | url :: rest => by
    cases h : probe url
    · simp [probeEndpoints, h, List.takeWhile_cons, List.dropWhile_cons,
        probeEndpoints_eq probe rest]
    · simp [probeEndpoints, h, List.takeWhile_cons, List.dropWhile_cons]

theorem probeEndpoints_none (probe : String → Bool) :
    ∀ l : List String, (∀ u ∈ l, probe u = false) → (probeEndpoints probe l).2 = none
  | [], _ => rfl
  | url :: rest, h => by
    simp [probeEndpoints, h url (by simp),
      probeEndpoints_none probe rest (fun u hu => h u (by simp [hu]))]

theorem getOwnedTokensGo_tokens_nil (probe : String → Bool)
    (call : Nat → String → Except String (List Nat))
    (hc : ∀ n url, ∃ e, call n url = Except.error e) :
    ∀ (rem attempt : Nat) (s : FrontendState) (delays tried : List Nat) (provs : List String),
      (getOwnedTokensGo probe call attempt rem s delays tried provs).tokens = []
  | 0, _, _, _, _, _ => rfl
  | rem + 1, attempt, s, delays, tried, provs => by
    cases hgp : getDirectProvider probe s with
    | ok ps =>
      obtain ⟨p, s₁⟩ := ps
      obtain ⟨e, he⟩ := hc attempt p
      by_cases hrem : rem = 0
      · subst hrem
        simp [getOwnedTokensGo, hgp, he]
      · simp [getOwnedTokensGo, hgp, he, hrem,
          getOwnedTokensGo_tokens_nil probe call hc rem]
    | error e =>
      by_cases hrem : rem = 0
      · subst hrem
        simp [getOwnedTokensGo, hgp]
      · simp [getOwnedTokensGo, hgp, hrem,
          getOwnedTokensGo_tokens_nil probe call hc rem]

theorem getOwnedTokensGo_tried_length (probe : String → Bool)
    (call : Nat → String → Except String (List Nat)) :
    ∀ (rem attempt : Nat) (s : FrontendState) (delays tried : List Nat) (provs : List String),
      (getOwnedTokensGo probe call attempt rem s delays tried provs).tried.length
        ≤ tried.length + rem
  | 0, _, _, _, _, _ => by simp [getOwnedTokensGo]
  | rem + 1, attempt, s, delays, tried, provs => by
    cases hgp : getDirectProvider probe s with
    | ok ps =>
      obtain ⟨p, s₁⟩ := ps
      cases hcall : call attempt p with
      | ok ts => simp [getOwnedTokensGo, hgp, hcall]
      | error e =>
        by_cases hrem : rem = 0
        · subst hrem
          simp [getOwnedTokensGo, hgp, hcall]
        · have := getOwnedTokensGo_tried_length probe call rem (attempt + 1) s₁
            (delays ++ [1000 * attempt]) (tried ++ [attempt]) (provs ++ [p])
          simp [getOwnedTokensGo, hgp, hcall, hrem]
          simp at this
          omega
    | error e =>
      by_cases hrem : rem = 0
      · subst hrem
        simp [getOwnedTokensGo, hgp]
      · have := getOwnedTokensGo_tried_length probe call rem (attempt + 1) s
          (delays ++ [1000 * attempt]) (tried ++ [attempt]) provs
        simp [getOwnedTokensGo, hgp, hrem]
        simp at this
        omega

theorem getOwnedTokensGo_cached (probe : String → Bool)
    (call : Nat → String → Except String (List Nat)) (p : String) :
    ∀ (rem attempt : Nat) (s : FrontendState) (delays tried : List Nat) (provs : List String),
      s.directProvider = some p → (∀ q ∈ provs, q = p) →
      (getOwnedTokensGo probe call attempt rem s delays tried provs).state = s
        ∧ ∀ q ∈ (getOwnedTokensGo probe call attempt rem s delays tried provs).providers, q = p
  | 0, _, _, _, _, _, _, hp => ⟨rfl, hp⟩
  | rem + 1, attempt, s, delays, tried, provs, hs, hp => by
    have hgp : getDirectProvider probe s = Except.ok (p, s) := by
      unfold getDirectProvider
      rw [hs]
    have hp₁ : ∀ q ∈ provs ++ [p], q = p := by
      intro q hq
      rcases List.mem_append.1 hq with h | h
      · exact hp q h
      · simpa using h
    cases hcall : call attempt p with
    | ok ts =>
      refine ⟨by simp [getOwnedTokensGo, hgp, hcall], ?_⟩
      simpa [getOwnedTokensGo, hgp, hcall] using hp₁
    | error e =>
      by_cases hrem : rem = 0
      · subst hrem
        simpa [getOwnedTokensGo, hgp, hcall] using hp₁
      · have := getOwnedTokensGo_cached probe call p rem (attempt + 1) s
          (delays ++ [1000 * attempt]) (tried ++ [attempt]) (provs ++ [p]) hs hp₁
        simpa [getOwnedTokensGo, hgp, hcall, hrem] using this

end Frontend

namespace Backend

/-- Claim C1: the merged ledger contains no transferred event whose
from-address is the zero/burn sentinel: every raw Transfer entry with
`from === ethers.ZeroAddress` is discarded during normalization (it is
the mint leg of an Issued event), so it never appears as a transferred
ledger event. -/
theorem transferred_never_from_zero
    (issuedEvents : List RawIssued) (transferEvents : List RawTransfer)
    (retiredEvents : List RawRetired) (e : CreditEvent)
    (he : e ∈ getCreditEvents issuedEvents transferEvents retiredEvents)
    (ht : e.type = EventType.transferred) :
    e.fromAddr ≠ some ZeroAddress := by
  rw [getCreditEvents, List.mem_insertionSort] at he
  unfold fetchedEvents at he
  rcases List.mem_append.1 he with h | h
  · rcases List.mem_append.1 h with h | h
    · obtain ⟨a, -, hn⟩ := List.mem_filterMap.1 h
      have hty := (normalizeIssued_spec hn).1
      rw [ht] at hty
      simp at hty
    · obtain ⟨a, -, hn⟩ := List.mem_filterMap.1 h
      obtain ⟨-, -, hfrom, hne⟩ := normalizeTransfer_spec hn
      rw [hfrom]
      intro hcontra
      exact hne (Option.some.inj hcontra)
  · obtain ⟨a, -, hn⟩ := List.mem_filterMap.1 h
    have hty := (normalizeRetired_spec hn).1
    rw [ht] at hty
    simp at hty

/-- Witness for C1 at a concrete transfer entry. -/
theorem transferred_never_from_zero_witness :
    c1Event ∈ getCreditEvents [] [c1Transfer] []
      ∧ c1Event.type = EventType.transferred
      ∧ c1Event.fromAddr ≠ some ZeroAddress :=
  ⟨by decide, by decide,
    transferred_never_from_zero [] [c1Transfer] [] c1Event (by decide) (by decide)⟩

/-- Claim C2: the merged ledger is sorted in non-decreasing
`(blockNumber, timestamp)` order, it is a permutation of the
concatenated per-category fetch results (Issued then Transferred then
Retired, each in contract log order), and ties are kept in that fetch
order: restricted to any one `(blockNumber, timestamp)` key the output
equals the input, so no secondary key reorders ties — the output is
exactly the stable sort of the concatenation. -/
theorem merge_sorted_stable
    (issuedEvents : List RawIssued) (transferEvents : List RawTransfer)
    (retiredEvents : List RawRetired) :
    List.Sorted eventLe (getCreditEvents issuedEvents transferEvents retiredEvents)
      ∧ List.Perm (getCreditEvents issuedEvents transferEvents retiredEvents)
          (fetchedEvents issuedEvents transferEvents retiredEvents)
      ∧ ∀ bn ts,
          (getCreditEvents issuedEvents transferEvents retiredEvents).filter (sameKey bn ts)
            = (fetchedEvents issuedEvents transferEvents retiredEvents).filter (sameKey bn ts) :=
  ⟨List.sorted_insertionSort eventLe _, List.perm_insertionSort eventLe _,
    fun bn ts => filter_insertionSort_sameKey bn ts _⟩

/-- Claim C3 counterexample: with non-strict block bounds (as the claim
states them), an extension entry at exactly the maximum block of X ties
with X events and, being an Issued entry, is placed by the stable merge
before the Transferred entry of X, so the first |merge X| events of the
extended merge differ from merge X. -/
theorem monotonic_extension_cex :
    c3IssuedX.blockNumber ≤ c3IssuedY.blockNumber
      ∧ c3TransferX.blockNumber ≤ c3IssuedY.blockNumber
      ∧ ¬ ((getCreditEvents [c3IssuedX, c3IssuedY] [c3TransferX] []).take
            (getCreditEvents [c3IssuedX] [c3TransferX] []).length
          = getCreditEvents [c3IssuedX] [c3TransferX] []) := by
  decide

theorem take_length_append (A B : List CreditEvent) : (A ++ B).take A.length = A := by
  simp

/-- Claim C3 (amended): if every raw entry of the extension Y lies in a
strictly later block than every raw entry of X, then the merge of the
per-category concatenations X ++ Y begins with exactly merge X: the
previously returned events keep their values and relative order. -/
theorem monotonic_extension
    (iX : List RawIssued) (tX : List RawTransfer) (rX : List RawRetired)
    (iY : List RawIssued) (tY : List RawTransfer) (rY : List RawRetired) (K : Nat)
    (hiX : ∀ a ∈ iX, a.blockNumber ≤ K) (htX : ∀ a ∈ tX, a.blockNumber ≤ K)
    (hrX : ∀ a ∈ rX, a.blockNumber ≤ K)
    (hiY : ∀ a ∈ iY, K < a.blockNumber) (htY : ∀ a ∈ tY, K < a.blockNumber)
    (hrY : ∀ a ∈ rY, K < a.blockNumber) :
    (getCreditEvents (iX ++ iY) (tX ++ tY) (rX ++ rY)).take
        (getCreditEvents iX tX rX).length
      = getCreditEvents iX tX rX := by
  have hstrict : ∀ a b : CreditEvent,
      decide (a.blockNumber ≤ K) = true → decide (b.blockNumber ≤ K) = false →
      eventLe a b ∧ ¬ eventLe b a := by
    intro a b ha hb
    rw [decide_eq_true_eq] at ha
    rw [decide_eq_false_iff_not] at hb
    refine ⟨Or.inl (by omega), fun hcon => ?_⟩
    unfold eventLe at hcon
    omega
  have hsplit := insertionSort_filter_split (fun e => decide (e.blockNumber ≤ K)) hstrict
    (fetchedEvents (iX ++ iY) (tX ++ tY) (rX ++ rY))
  have hselfI : (iX.filterMap normalizeIssued).filter (fun e => decide (e.blockNumber ≤ K))
      = iX.filterMap normalizeIssued := by
    refine filter_eq_self_of _ _ (fun e he => ?_)
    obtain ⟨a, ha, hn⟩ := List.mem_filterMap.1 he
    rw [decide_eq_true_eq, (normalizeIssued_spec hn).2]
    exact hiX a ha
  have hselfT : (tX.filterMap normalizeTransfer).filter (fun e => decide (e.blockNumber ≤ K))
      = tX.filterMap normalizeTransfer := by
    refine filter_eq_self_of _ _ (fun e he => ?_)
    obtain ⟨a, ha, hn⟩ := List.mem_filterMap.1 he
    rw [decide_eq_true_eq, (normalizeTransfer_spec hn).2.1]
    exact htX a ha
  have hselfR : (rX.filterMap normalizeRetired).filter (fun e => decide (e.blockNumber ≤ K))
      = rX.filterMap normalizeRetired := by
    refine filter_eq_self_of _ _ (fun e he => ?_)
    obtain ⟨a, ha, hn⟩ := List.mem_filterMap.1 he
    rw [decide_eq_true_eq, (normalizeRetired_spec hn).2]
    exact hrX a ha
  have hnilI : (iY.filterMap normalizeIssued).filter (fun e => decide (e.blockNumber ≤ K))
      = [] := by
    refine filter_eq_nil_of _ _ (fun e he => ?_)
    obtain ⟨a, ha, hn⟩ := List.mem_filterMap.1 he
    rw [decide_eq_false_iff_not, (normalizeIssued_spec hn).2]
    have := hiY a ha
    omega
  have hnilT : (tY.filterMap normalizeTransfer).filter (fun e => decide (e.blockNumber ≤ K))
      = [] := by
    refine filter_eq_nil_of _ _ (fun e he => ?_)
    obtain ⟨a, ha, hn⟩ := List.mem_filterMap.1 he
    rw [decide_eq_false_iff_not, (normalizeTransfer_spec hn).2.1]
    have := htY a ha
    omega
  have hnilR : (rY.filterMap normalizeRetired).filter (fun e => decide (e.blockNumber ≤ K))
      = [] := by
    refine filter_eq_nil_of _ _ (fun e he => ?_)
    obtain ⟨a, ha, hn⟩ := List.mem_filterMap.1 he
    rw [decide_eq_false_iff_not, (normalizeRetired_spec hn).2]
    have := hrY a ha
    omega
  have hfilter : (fetchedEvents (iX ++ iY) (tX ++ tY) (rX ++ rY)).filter
      (fun e => decide (e.blockNumber ≤ K)) = fetchedEvents iX tX rX := by
    unfold fetchedEvents
    rw [List.filterMap_append, List.filterMap_append, List.filterMap_append]
    simp only [List.filter_append]
    rw [hselfI, hselfT, hselfR, hnilI, hnilT, hnilR]
    simp
  simp only [getCreditEvents]
  rw [hsplit, hfilter]
  exact take_length_append _ _

/-- Witness for the amended C3 at concrete inputs (X at block 10, Y at
block 11). -/
theorem monotonic_extension_witness :
    (getCreditEvents ([c3wIssuedA] ++ [c3wIssuedB]) ([c3wTransfer] ++ []) ([] ++ [])).take
        (getCreditEvents [c3wIssuedA] [c3wTransfer] []).length
      = getCreditEvents [c3wIssuedA] [c3wTransfer] [] :=
  monotonic_extension [c3wIssuedA] [c3wTransfer] [] [c3wIssuedB] [] [] 10
    (by decide) (by decide) (by decide) (by decide) (by decide) (by decide)

/-- Claim C4 counterexample: the merge performs no deduplication — fed a
raw input containing the same Transfer entry twice (same transaction
hash, category and token), the resulting ledger contains the
corresponding ledger event twice. -/
theorem merge_dedup_cex :
    (getCreditEvents [] [c4Transfer, c4Transfer] []).count c4Event = 2 := by
  decide

/-- Claim C4 (amended): the merge is deterministic and introduces no
duplicates of its own — each normalized event occurs in the output
exactly as often as in the input — but it does not deduplicate: at most
one ledger event per (txHash, category, index) holds only when the raw
inputs themselves contain each occurrence at most once. -/
theorem merge_count_preserved
    (issuedEvents : List RawIssued) (transferEvents : List RawTransfer)
    (retiredEvents : List RawRetired) (e : CreditEvent) :
    (getCreditEvents issuedEvents transferEvents retiredEvents).count e
      = (fetchedEvents issuedEvents transferEvents retiredEvents).count e :=
  (List.perm_insertionSort eventLe _).count_eq e

/-- Claim C5: if any one of the three category fetches fails, the whole
`getCreditEvents` operation fails — the error is rethrown and the
function never returns a ledger that silently omits a failed category. -/
theorem fetch_failure_propagates
    (fetchIssued : Except String (List RawIssued))
    (fetchTransfer : Except String (List RawTransfer))
    (fetchRetired : Except String (List RawRetired))
    (h : (∃ e, fetchIssued = Except.error e) ∨ (∃ e, fetchTransfer = Except.error e)
          ∨ (∃ e, fetchRetired = Except.error e)) :
    ∃ msg, getCreditEventsE (some ()) fetchIssued fetchTransfer fetchRetired
            = Except.error msg := by
  rcases h with ⟨e, he⟩ | ⟨e, he⟩ | ⟨e, he⟩
  · exact ⟨e, by simp [getCreditEventsE, he]⟩
  · cases fetchIssued with
    | error e₁ => exact ⟨e₁, by simp [getCreditEventsE]⟩
    | ok l₁ => exact ⟨e, by simp [getCreditEventsE, he]⟩
  · cases fetchIssued with
    | error e₁ => exact ⟨e₁, by simp [getCreditEventsE]⟩
    | ok l₁ =>
      cases fetchTransfer with
      | error e₂ => exact ⟨e₂, by simp [getCreditEventsE]⟩
      | ok l₂ => exact ⟨e, by simp [getCreditEventsE, he]⟩

/-- Witness for C5: a failing issuance fetch fails the whole call. -/
theorem fetch_failure_propagates_witness :
    ∃ msg, getCreditEventsE (some ()) (Except.error "rpc down")
        (Except.ok []) (Except.ok []) = Except.error msg :=
  fetch_failure_propagates (Except.error "rpc down") (Except.ok []) (Except.ok [])
    (Or.inl ⟨"rpc down", rfl⟩)

/-- Claim C10: when the first call to the backend `getProvider` creates
a provider whose connection test fails, the call throws, yet the created
provider stays cached in the module-level variable; every later call
returns that never-verified provider immediately, running no connection
test and reporting no error. -/
theorem provider_cached_despite_failed_test (url : String) :
    (getProvider (some url) false { provider := none }).1
        = Except.error "Failed to connect to blockchain"
      ∧ (getProvider (some url) false { provider := none }).2.1 = { provider := some url }
      ∧ (getProvider (some url) false { provider := none }).2.2 = 1
      ∧ ∀ testOk : Bool,
          getProvider (some url) testOk { provider := some url }
            = (Except.ok (some url), { provider := some url }, 0) :=
  ⟨rfl, rfl, rfl, fun _ => rfl⟩

end Backend

namespace Frontend

/-- Claim C8: endpoint selection walks the configured list (primary url
first, then the fallbacks in order), probing each; the probed urls are
exactly the failing prefix plus the first success, so no later endpoint
is probed; the first success becomes the cached connection handle, and
when every probe fails selection throws and yields no handle at all. -/
theorem endpoint_selection (probe : String → Bool) :
    (probeEndpoints probe endpointUrls).2
        = (endpointUrls.dropWhile (fun u => !(probe u))).head?
      ∧ (probeEndpoints probe endpointUrls).1
        = endpointUrls.takeWhile (fun u => !(probe u))
            ++ (endpointUrls.dropWhile (fun u => !(probe u))).take 1
      ∧ (∀ p, (probeEndpoints probe endpointUrls).2 = some p →
            getDirectProvider probe { directProvider := none }
              = Except.ok (p, { directProvider := some p }))
      ∧ ((∀ u ∈ endpointUrls, probe u = false) →
            getDirectProvider probe { directProvider := none }
              = Except.error
                  "All RPC endpoints failed. Please check your internet connection and try again.") := by
  have h := probeEndpoints_eq probe endpointUrls
  refine ⟨by rw [h], by rw [h], ?_, ?_⟩
  · intro p hp
    unfold getDirectProvider
    rw [hp]
  · intro hall
    unfold getDirectProvider
    rw [probeEndpoints_none probe endpointUrls hall]

/-- Witness for C8: with every endpoint failing, selection throws. -/
theorem endpoint_selection_witness :
    getDirectProvider (fun _ => false) { directProvider := none }
      = Except.error
          "All RPC endpoints failed. Please check your internet connection and try again." :=
  (endpoint_selection (fun _ => false)).2.2.2 (fun _ _ => rfl)

/-- Claim C6: when every attempt of the underlying read fails,
`getOwnedTokens` returns the empty token list and `isTokenRetired`
returns `false`; neither propagates an error (their result types carry
no failure, matching the `return []` and `return false` handlers). -/
theorem reads_degrade_to_defaults (probe : String → Bool)
    (call : Nat → String → Except String (List Nat))
    (rcall : String → Except String Bool) (s s₀ : FrontendState)
    (hc : ∀ n url, ∃ e, call n url = Except.error e)
    (hr : ∀ url, ∃ e, rcall url = Except.error e) :
    (getOwnedTokens probe call s).tokens = []
      ∧ (isTokenRetired probe rcall s₀).1 = false := by
  constructor
  · exact getOwnedTokensGo_tokens_nil probe call hc 3 1 s [] [] []
  · unfold isTokenRetired
    cases hgp : getDirectProvider probe s₀ with
    | ok ps =>
      obtain ⟨p, s₁⟩ := ps
      obtain ⟨e, he⟩ := hr p
      simp [he]
    | error e => simp

/-- Witness for C6: all endpoints failing and all reads failing yield
the defaults. -/
theorem reads_degrade_to_defaults_witness :
    (getOwnedTokens (fun _ => false) (fun _ _ => Except.error "boom")
        { directProvider := none }).tokens = []
      ∧ (isTokenRetired (fun _ => false) (fun _ => Except.error "boom")
          { directProvider := none }).1 = false :=
  reads_degrade_to_defaults (fun _ => false) (fun _ _ => Except.error "boom")
    (fun _ => Except.error "boom") { directProvider := none } { directProvider := none }
    (fun _ _ => ⟨"boom", rfl⟩) (fun _ => ⟨"boom", rfl⟩)

theorem getOwnedTokensGo_fail_step (probe : String → Bool)
    (call : Nat → String → Except String (List Nat)) (attempt rem : Nat)
    (s : FrontendState) (p e : String) (delays tried : List Nat) (provs : List String)
    (hgp : getDirectProvider probe s = Except.ok (p, s))
    (hcall : call attempt p = Except.error e) (hrem : rem ≠ 0) :
    getOwnedTokensGo probe call attempt (rem + 1) s delays tried provs
      = getOwnedTokensGo probe call (attempt + 1) rem s (delays ++ [1000 * attempt])
          (tried ++ [attempt]) (provs ++ [p]) := by
  simp only [getOwnedTokensGo, hgp, hcall]
  rw [if_neg hrem]

theorem getOwnedTokensGo_ok_step (probe : String → Bool)
    (call : Nat → String → Except String (List Nat)) (attempt rem : Nat)
    (s : FrontendState) (p : String) (tokens : List Nat) (delays tried : List Nat)
    (provs : List String)
    (hgp : getDirectProvider probe s = Except.ok (p, s))
    (hcall : call attempt p = Except.ok tokens) :
    getOwnedTokensGo probe call attempt (rem + 1) s delays tried provs
      = { tokens := tokens, state := s, delays := delays,
          tried := tried ++ [attempt], providers := provs ++ [p] } := by
  simp only [getOwnedTokensGo, hgp, hcall]

/-- Claim C7: the resilient read makes at most 3 attempts, and between a
failed attempt n and the next it waits `1000 * n` ms (linear backoff):
an operation failing on attempts 1 and 2 and succeeding on attempt 3
returns the successful result with exactly the two backoff delays
`[1000 * 1, 1000 * 2]` applied. -/
theorem bounded_retry_linear_backoff (probe : String → Bool)
    (call : Nat → String → Except String (List Nat)) (s : FrontendState) (p : String)
    (tokens : List Nat) (e₁ e₂ : String)
    (hs : s.directProvider = some p)
    (h1 : call 1 p = Except.error e₁) (h2 : call 2 p = Except.error e₂)
    (h3 : call 3 p = Except.ok tokens) :
    getOwnedTokens probe call s
        = { tokens := tokens, state := s, delays := [1000 * 1, 1000 * 2],
            tried := [1, 2, 3], providers := [p, p, p] }
      ∧ ∀ (probe₁ : String → Bool) (call₁ : Nat → String → Except String (List Nat))
          (s₁ : FrontendState),
          (getOwnedTokens probe₁ call₁ s₁).tried.length ≤ 3 := by
  have hgp : getDirectProvider probe s = Except.ok (p, s) := by
    unfold getDirectProvider
    rw [hs]
  constructor
  · show getOwnedTokensGo probe call 1 (2 + 1) s [] [] [] = _
    rw [getOwnedTokensGo_fail_step probe call 1 2 s p e₁ [] [] [] hgp h1 (by omega)]
    show getOwnedTokensGo probe call 2 (1 + 1) s [1000 * 1] [1] [p] = _
    rw [getOwnedTokensGo_fail_step probe call 2 1 s p e₂ [1000 * 1] [1] [p] hgp h2
      (by omega)]
    show getOwnedTokensGo probe call 3 (0 + 1) s [1000 * 1, 1000 * 2] [1, 2] [p, p] = _
    rw [getOwnedTokensGo_ok_step probe call 3 0 s p tokens [1000 * 1, 1000 * 2] [1, 2]
      [p, p] hgp h3]
    simp
  · intro probe₁ call₁ s₁
    simpa using getOwnedTokensGo_tried_length probe₁ call₁ 3 1 s₁ [] [] []

/-- Witness for C7: a concrete operation failing twice then succeeding. -/
theorem bounded_retry_linear_backoff_witness :
    getOwnedTokens (fun _ => true)
        (fun n _ => if n = 3 then Except.ok [7] else Except.error "rpc failure")
        { directProvider := some "0xprov" }
      = { tokens := [7], state := { directProvider := some "0xprov" },
          delays := [1000 * 1, 1000 * 2], tried := [1, 2, 3],
          providers := ["0xprov", "0xprov", "0xprov"] } :=
  (bounded_retry_linear_backoff (fun _ => true)
    (fun n _ => if n = 3 then Except.ok [7] else Except.error "rpc failure")
    { directProvider := some "0xprov" } "0xprov" [7] "rpc failure" "rpc failure"
    rfl rfl rfl rfl).1

/-- Claim C9 counterexample: with a stale cached handle, a good endpoint
available on every probe, and every read failing, all three retry
attempts nevertheless reuse the stale cached provider and the final
state still caches it — a failed operation does not invalidate the
handle and no reselection happens. -/
theorem handle_invalidation_cex :
    getOwnedTokens (fun _ => true) (fun _ _ => Except.error "read failed") c9State
      = { tokens := [], state := c9State, delays := [1000, 2000], tried := [1, 2, 3],
          providers := ["0xstaleprovider", "0xstaleprovider", "0xstaleprovider"] } := by
  rfl

/-- Claim C9 (amended): the cached connection handle, once present, is
never invalidated: every retry attempt of a read reuses the same cached
provider regardless of operation failures, and the module state still
caches it afterwards; reselection happens only when no provider is
cached at all. -/
theorem cached_handle_reused (probe : String → Bool)
    (call : Nat → String → Except String (List Nat)) (s : FrontendState) (p : String)
    (hs : s.directProvider = some p) :
    (getOwnedTokens probe call s).state = s
      ∧ ∀ q ∈ (getOwnedTokens probe call s).providers, q = p :=
  getOwnedTokensGo_cached probe call p 3 1 s [] [] [] hs (by simp)

/-- Witness for the amended C9 at a concrete cached state. -/
theorem cached_handle_reused_witness :
    (getOwnedTokens (fun _ => true) (fun _ _ => Except.error "x") c9State).state = c9State
      ∧ ∀ q ∈ (getOwnedTokens (fun _ => true)
          (fun _ _ => Except.error "x") c9State).providers, q = "0xstaleprovider" :=
  cached_handle_reused (fun _ => true) (fun _ _ => Except.error "x") c9State
    "0xstaleprovider" rfl

end Frontend
